import Mathlib

/-!
Verification of the WPID motion-control library (repository AustinRebello/VEX_MQP).

The repository ships two source files: `src/src/init.cpp` (application wiring that
constructs the chassis and configures two PID controllers) and
`src/include/WPID/Chassis/HDrive.h` (the H-Drive chassis interface).  The PID and
Tank implementations themselves are not present under `src/`; where a claim depends
on them, the corresponding definition below is modelled from the specification and
its doc comment says so.  Numeric values (C++ `float`) are embedded as rationals:
every C++ float value is an exactly representable rational, and the algorithms use
only field operations and comparisons.
-/

namespace WPID

/-- Clamp a value into the interval from lo to hi (the usual C++ idiom
min(hi, max(lo, x))). -/
def clamp (x lo hi : ℚ) : ℚ := min hi (max lo x)

/-- C++ float-to-int conversion truncates toward zero. -/
def cppTrunc (q : ℚ) : ℤ := if 0 ≤ q then ⌊q⌋ else ⌈q⌉

/-- Modelled from the spec: the fixed design constant for the settlement debounce,
"a configured minimum consecutive number of samples ... a fixed design constant
(e.g., 3 to 5 ticks)".  The PID implementation is not under src/. -/
def settleThreshold : ℕ := 3

/-- Modelled from the spec: the PID controller state.  The implementation file is
not under src/; the fields follow the spec's data model (gains kP kI kD, bias,
maxIntegral, errorRange, tickInterval) together with the names visible in
src/src/init.cpp (`delay_time`, `bias`, `max_integral`, `setErrorRange`), plus the
internal running state: target, accumulated integral, previous error, and the
count of consecutive in-tolerance samples. -/
structure PID where
  kP : ℚ
  kI : ℚ
  kD : ℚ
  bias : ℚ := 0
  max_integral : ℚ := 0
  error_range : ℚ := 0
  delay_time : ℚ := 20
  target : ℚ := 0
  integral : ℚ := 0
  prev_error : ℚ := 0
  settle_count : ℕ := 0
deriving Repr, DecidableEq

/-- Construction with gains only, as in `PID straight = PID(0.15, 0.6, 0.015)`
in src/src/init.cpp; every other field keeps its default. -/
def PID.mk3 (kp ki kd : ℚ) : PID := { kP := kp, kI := ki, kD := kd }

/-- Setter seen in src/src/init.cpp (`straight.setErrorRange(1)`). -/
def PID.setErrorRange (p : PID) (r : ℚ) : PID := { p with error_range := r }

/-- Tick-interval configuration as it appears in src/src/init.cpp line 25:
`straight.delay_time = 50;` is a direct assignment to a public field, so it is a
plain state update with no error channel. -/
def PID.setDelayTime (p : PID) (t : ℚ) : PID := { p with delay_time := t }

/-- Modelled from the spec: `reset(target)`: zero integral, set previous
error = target (current unknown), clear settle counter.  The PID implementation
is not under src/. -/
def PID.reset (p : PID) (t : ℚ) : PID :=
  { p with target := t, integral := 0, prev_error := t, settle_count := 0 }

/-- Modelled from the spec: `compute(currentValue)`: error = target − currentValue;
integral += error * tickInterval, then clamp to ±maxIntegral;
derivative = (error − previousError) / tickInterval; previousError = error;
correction = kP*error + kI*integral + kD*derivative + bias.  The in-tolerance
sample counter backing `isSettled` advances on each sample: it increments when
|error| ≤ errorRange and resets to zero otherwise.  The PID implementation is not
under src/. -/
def PID.compute (p : PID) (current : ℚ) : ℚ × PID :=
  let error := p.target - current
  let integral := clamp (p.integral + error * p.delay_time) (-p.max_integral) p.max_integral
  let derivative := (error - p.prev_error) / p.delay_time
  let correction := p.kP * error + p.kI * integral + p.kD * derivative + p.bias
  (correction,
   { p with integral := integral, prev_error := error,
            settle_count := if |error| ≤ p.error_range then p.settle_count + 1 else 0 })

/-- Modelled from the spec: `isSettled()` is true when the in-tolerance streak has
reached the fixed minimum number of consecutive samples. -/
def PID.isSettled (p : PID) : Bool := settleThreshold ≤ p.settle_count

/-- Run a list of current-value samples through `compute`, keeping only the state. -/
def PID.runComputes (p : PID) (cs : List ℚ) : PID :=
  cs.foldl (fun q c => (q.compute c).2) p

/-- Run a list of current-value samples through `compute`, collecting the
correction outputs. -/
def PID.outputs (p : PID) : List ℚ → List ℚ
  | [] => []
  | c :: rest => (p.compute c).1 :: (p.compute c).2.outputs rest

/-- One call of the PID interface: a `reset(target)` or a `compute(current)`. -/
inductive PIDOp where
  | rst (t : ℚ)
  | cmp (c : ℚ)

/-- Apply one interface call to the controller state. -/
def PID.applyOp (p : PID) : PIDOp → PID
  | .rst t => p.reset t
  | .cmp c => (p.compute c).2

/-- Apply a sequence of interface calls to the controller state. -/
def PID.runOps (p : PID) (ops : List PIDOp) : PID :=
  ops.foldl PID.applyOp p

/-- Whether a sample lies in the tolerance band of the controller. -/
def PID.inTol (p : PID) (c : ℚ) : Bool := |p.target - c| ≤ p.error_range

/-- The number of trailing consecutive samples of the trace that lie in the
tolerance band: the length of the longest suffix all of whose samples satisfy
`inTol`. -/
def PID.trailStreak (p : PID) (cs : List ℚ) : ℕ :=
  (cs.reverse.takeWhile p.inTol).length

/-- The straight-motion PID exactly as configured in src/src/init.cpp:
`PID(0.15, 0.6, 0.015)`, then `delay_time = 50`, `bias = 0`, `max_integral = 10`,
`setErrorRange(1)`. -/
def straightPID : PID :=
  ({ PID.mk3 (15/100) (6/10) (15/1000) with
      delay_time := 50, bias := 0, max_integral := 10 }).setErrorRange 1

/-- The turning PID exactly as configured in src/src/init.cpp:
`PID(2, 0.02, 0)`, then `setErrorRange(1)`. -/
def turnPID : PID := (PID.mk3 2 (2/100) 0).setErrorRange 1

/-- Brake behaviour of a motor group: coast, brake, or hold
(HDrive.h `setBrakeType`). -/
inductive BrakeMode where
  | coast
  | brake
  | hold
deriving Repr, DecidableEq

/-- Modelled from the spec: the Mechanism boundary, a logical motor group exposing
spin(velocity), position(units), resetPosition(), setBrakeMode(mode).  We record
the last commanded velocity, the encoder position, and the brake mode. -/
structure Mechanism where
  velocity_cmd : ℚ := 0
  position : ℚ := 0
  brake_mode : BrakeMode := BrakeMode.coast
deriving Repr, DecidableEq

/-- Modelled from the spec and src/include/WPID/Chassis/HDrive.h: the chassis
state: geometric constants, the three Mechanisms, one PID controller per axis,
the brake type, and whether an asynchronous handle is in flight. -/
structure HDrive where
  track_width : ℚ
  wheel_radius : ℚ
  center_wheel_radius : ℚ
  gear_ratio : ℚ := 1
  left : Mechanism := {}
  right : Mechanism := {}
  center : Mechanism := {}
  pidStraight : PID := PID.mk3 0 0 0
  pidTurn : PID := PID.mk3 0 0 0
  pidStrafe : PID := PID.mk3 0 0 0
  brake_type : BrakeMode := BrakeMode.coast
  async_active : Bool := false
  straight_offset : ℚ := 0
  turn_offset : ℚ := 0
  strafe_offset : ℚ := 0
deriving Repr, DecidableEq

/-- The Tank chassis constructed in src/src/init.cpp:
`Chassis((12.5 + 12.75) / 2, 3.25/2, &leftGroup, &rightGroup)` with the straight
and turn PIDs configured there, embedded in the H-Drive model with a trivial
center axis. -/
def chassis : HDrive :=
  { track_width := 101/8, wheel_radius := 13/8, center_wheel_radius := 13/8,
    pidStraight := straightPID, pidTurn := turnPID,
    brake_type := BrakeMode.brake }

/-- Modelled from the spec: each side's encoder target magnitude for a turn
through θ degrees.  The arc θ·(π/180)·(track_width/2), expressed in wheel degrees
by dividing by the circumference 2π·wheel_radius and scaling by 360 and by the
gear ratio, is θ·track_width·gear_ratio/(2·wheel_radius): the factors of π
cancel, so the conversion is exact over the rationals. -/
def HDrive.turnTargetMag (ch : HDrive) (θ : ℚ) : ℚ :=
  θ * ch.track_width * ch.gear_ratio / (2 * ch.wheel_radius)

/-- Modelled from the spec: the left and right targets for a turn: equal
magnitude, opposite sign, left positive for a positive (clockwise) angle. -/
def HDrive.turnTargets (ch : HDrive) (θ : ℚ) : ℚ × ℚ :=
  (ch.turnTargetMag θ, -(ch.turnTargetMag θ))

/-- The target-computation stage of `turn`.  Per src/include/WPID/Chassis/HDrive.h
line 117 the synchronous `turn(int target_angle, int max_speed)` takes its angle
as a C++ int, so a fractional request is truncated toward zero at the call
boundary before the targets are computed. -/
def HDrive.turn (ch : HDrive) (target_angle : ℚ) : ℚ × ℚ :=
  ch.turnTargets ((cppTrunc target_angle : ℤ) : ℚ)

/-- The target-computation stage of `turnAsync`.  Per
src/include/WPID/Chassis/HDrive.h line 125 `turnAsync(float target_angle, int
max_speed)` takes its angle as a float, so the fractional angle reaches the
target computation unchanged. -/
def HDrive.turnAsync (ch : HDrive) (target_angle : ℚ) : ℚ × ℚ :=
  ch.turnTargets target_angle

/-- `stop()`, modelled from the spec (the body is not under src/): immediately
commands all Mechanisms to zero velocity and cancels any in-flight async handle;
it does not apply the brake mode. -/
def HDrive.stop (ch : HDrive) : HDrive :=
  { ch with
      left := { ch.left with velocity_cmd := 0 },
      right := { ch.right with velocity_cmd := 0 },
      center := { ch.center with velocity_cmd := 0 },
      async_active := false }

/-- Modelled from the spec: the acceleration ramp limits the change of the
commanded velocity per tick to at most maxAcceleration in magnitude. -/
def rampStep (maxA prev corr : ℚ) : ℚ := prev + clamp (corr - prev) (-maxA) maxA

/-- Mirror a controller state across zero: the symmetry that relates the two
sides of a turn (opposite targets, opposite accumulated state). -/
def PID.mirror (p : PID) : PID :=
  { p with target := -p.target, integral := -p.integral, prev_error := -p.prev_error }

/-- The per-Mechanism control-loop state: the axis controller plus the last
commanded velocity (for the acceleration ramp). -/
structure SideLoop where
  pid : PID
  last_cmd : ℚ := 0
deriving Repr, DecidableEq

/-- Modelled from the spec: one control-loop tick for one Mechanism: sample the
encoder, compute the PID correction, ramp it against the previous command, clamp
it to ±maxSpeed, and command the Mechanism with the result. -/
def sideTick (maxSpd maxA : ℚ) (s : SideLoop) (reading : ℚ) : SideLoop × ℚ :=
  let out := s.pid.compute reading
  let v := clamp (rampStep maxA s.last_cmd out.1) (-maxSpd) maxSpd
  ({ pid := out.2, last_cmd := v }, v)

/-- The stream of velocity commands one Mechanism receives over a list of encoder
readings. -/
def sideCmds (maxSpd maxA : ℚ) (s : SideLoop) : List ℚ → List ℚ
  | [] => []
  | r :: rs =>
      (sideTick maxSpd maxA s r).2 :: sideCmds maxSpd maxA (sideTick maxSpd maxA s r).1 rs

/-- The per-axis targets and speed caps fixed by `setTarget` when a motion
primitive starts. -/
structure LoopCfg where
  left_target : ℚ
  right_target : ℚ
  center_target : ℚ
  l_max_spd : ℚ
  r_max_spd : ℚ
  c_max_spd : ℚ
deriving Repr, DecidableEq

/-- The whole-chassis control-loop state: the fixed targets plus one per-Mechanism
loop. -/
structure LoopState where
  cfg : LoopCfg
  leftLoop : SideLoop
  rightLoop : SideLoop
  centerLoop : SideLoop
deriving Repr, DecidableEq

/-- Modelled from the spec and the doc comment of `HDrive::setTarget`
(src/include/WPID/Chassis/HDrive.h lines 16 to 27): the private
`setTarget(left_target, right_target, center_target, l_max_spd, r_max_spd,
c_max_spd)` fixes the per-axis targets once, resets each axis controller to its
target, and starts the tick loop ("open loop algorithm", "does not use odometry
to calculate error", "cannot adjust for sideways error").  The side axes use the
controller the calling primitive selected; the straight controller is shown, and
none of the stated invariants depend on the choice. -/
def HDrive.setTarget (ch : HDrive)
    (left_target right_target center_target : ℚ)
    (l_max_spd r_max_spd c_max_spd : ℚ) : LoopState :=
  { cfg := { left_target := left_target, right_target := right_target,
             center_target := center_target, l_max_spd := l_max_spd,
             r_max_spd := r_max_spd, c_max_spd := c_max_spd },
    leftLoop := { pid := ch.pidStraight.reset left_target },
    rightLoop := { pid := ch.pidStraight.reset right_target },
    centerLoop := { pid := ch.pidStrafe.reset center_target } }

/-- One tick of the whole-chassis loop: each axis closes only on its own encoder
reading; the configuration is carried through unchanged. -/
def loopTick (maxA : ℚ) (s : LoopState) (enc : ℚ × ℚ × ℚ) : LoopState × (ℚ × ℚ × ℚ) :=
  let l := sideTick s.cfg.l_max_spd maxA s.leftLoop enc.1
  let r := sideTick s.cfg.r_max_spd maxA s.rightLoop enc.2.1
  let c := sideTick s.cfg.c_max_spd maxA s.centerLoop enc.2.2
  ({ s with leftLoop := l.1, rightLoop := r.1, centerLoop := c.1 }, (l.2, r.2, c.2))

/-- Run the whole-chassis loop over a trace of encoder readings. -/
def runLoop (maxA : ℚ) (s : LoopState) : List (ℚ × ℚ × ℚ) → LoopState
  | [] => s
  | e :: tr => runLoop maxA (loopTick maxA s e).1 tr

/-- The velocity commands the left Mechanism receives over a trace. -/
def leftCmds (maxA : ℚ) (s : LoopState) : List (ℚ × ℚ × ℚ) → List ℚ
  | [] => []
  | e :: tr => (loopTick maxA s e).2.1 :: leftCmds maxA (loopTick maxA s e).1 tr

/-- Claim C1: with tickInterval > 0, `compute(currentValue)` returns exactly
kP*error + kI*integral + kD*derivative + bias where error = target − currentValue,
integral is the accumulated integral after adding error*tickInterval and clamping
to ±maxIntegral, and derivative = (error − previousError)/tickInterval; the call
is total on rationals (no exception, finite value) and updates previousError to
the new error. -/
theorem PID.compute_spec (p : PID) (c : ℚ) (h : 0 < p.delay_time) :
    (p.compute c).1 =
      p.kP * (p.target - c)
      + p.kI * (clamp (p.integral + (p.target - c) * p.delay_time)
                  (-p.max_integral) p.max_integral)
      + p.kD * (((p.target - c) - p.prev_error) / p.delay_time)
      + p.bias
    ∧ (p.compute c).2.integral =
        clamp (p.integral + (p.target - c) * p.delay_time)
          (-p.max_integral) p.max_integral
    ∧ (p.compute c).2.prev_error = p.target - c := by
  refine ⟨rfl, rfl, rfl⟩

/-- Witness for C1: the straight PID configured in src/src/init.cpp
(gains 0.15, 0.6, 0.015; delay_time 50; bias 0; max_integral 10; errorRange 1),
reset to target 100 and computed at current value 40. -/
theorem PID.compute_spec_witness :
    (0 : ℚ) < 50 ∧
    ((((PID.mk3 (15/100) (6/10) (15/1000)).setDelayTime 50).reset 100).compute 40).2.prev_error
      = 100 - 40 := by
  refine ⟨by norm_num, ?_⟩
  exact (PID.compute_spec ((((PID.mk3 (15/100) (6/10) (15/1000)).setDelayTime 50)).reset 100)
    40 (by norm_num [PID.setDelayTime, PID.reset, PID.mk3])).2.2

/-- The clamp into a symmetric interval of nonnegative radius bounds the
absolute value by the radius. -/
lemma abs_clamp_le (x M : ℚ) (hM : 0 ≤ M) : |clamp x (-M) M| ≤ M := by
  rw [abs_le]
  exact ⟨le_min (by linarith) (le_max_left _ _), min_le_left _ _⟩

lemma PID.applyOp_max_integral (p : PID) (op : PIDOp) :
    (p.applyOp op).max_integral = p.max_integral := by
  cases op <;> rfl

lemma PID.applyOp_integral (p : PID) (op : PIDOp) (hM : 0 ≤ p.max_integral) :
    |(p.applyOp op).integral| ≤ p.max_integral := by
  cases op with
  | rst t => simpa [PID.applyOp, PID.reset] using hM
  | cmp c =>
      simp only [PID.applyOp, PID.compute]
      exact abs_clamp_le _ _ hM

lemma PID.runOps_integral_bound :
    ∀ (ops : List PIDOp) (q : PID), 0 ≤ q.max_integral → ops ≠ [] →
      |(q.runOps ops).integral| ≤ q.max_integral := by
  intro ops
  induction ops with
  | nil => intro q _ hne; exact absurd rfl hne
  | cons o os ih =>
      intro q hM _
      rw [show q.runOps (o :: os) = (q.applyOp o).runOps os from rfl]
      by_cases hos : os = []
      · subst hos
        simpa [PID.runOps] using q.applyOp_integral o hM
      · have h2 := ih (q.applyOp o) (by rw [q.applyOp_max_integral o]; exact hM) hos
        rwa [q.applyOp_max_integral o] at h2

/-- Claim C2: for every PID controller with a nonnegative integral clamp, after
every nonempty sequence of reset and compute calls the magnitude of the
accumulated integral state is at most maxIntegral, including arbitrarily long
sequences of compute calls with large constant error. -/
theorem PID.integral_always_clamped (p : PID) (ops : List PIDOp)
    (hM : 0 ≤ p.max_integral) (hne : ops ≠ []) :
    |(p.runOps ops).integral| ≤ p.max_integral :=
  PID.runOps_integral_bound ops p hM hne

/-- Witness for C2: the straight PID of src/src/init.cpp (maxIntegral = 10),
reset to target 100 and fed one compute with error 100 and tick 50; the raw
accumulation 5000 is clamped to 10. -/
theorem PID.integral_always_clamped_witness :
    0 ≤ straightPID.max_integral ∧ ([PIDOp.rst 100, PIDOp.cmp 0] : List PIDOp) ≠ [] ∧
    |(straightPID.runOps [PIDOp.rst 100, PIDOp.cmp 0]).integral| ≤ straightPID.max_integral := by
  have hM : (0 : ℚ) ≤ straightPID.max_integral := by
    rw [show straightPID.max_integral = 10 from rfl]; norm_num
  exact ⟨hM, by simp, PID.integral_always_clamped straightPID _ hM (by simp)⟩

lemma takeWhile_append_all {α : Type} (f : α → Bool) (l1 l2 : List α)
    (h : ∀ a ∈ l1, f a) :
    (l1 ++ l2).takeWhile f = l1 ++ l2.takeWhile f := by
  induction l1 with
  | nil => simp
  | cons a l ih =>
      have ha : f a := h a (by simp)
      simp only [List.cons_append, List.takeWhile_cons, ha, ite_true]
      rw [ih fun b hb => h b (by simp [hb])]

lemma takeWhile_append_fail {α : Type} (f : α → Bool) (l1 l2 : List α)
    (h : ¬ ∀ a ∈ l1, f a) :
    (l1 ++ l2).takeWhile f = l1.takeWhile f := by
  induction l1 with
  | nil => exact absurd (by simp) h
  | cons a l ih =>
      by_cases ha : f a
      · have hl : ¬ ∀ b ∈ l, f b := fun hl => h fun b hb => by
          rcases List.mem_cons.mp hb with rfl | hb
          · exact ha
          · exact hl b hb
        simp only [List.cons_append, List.takeWhile_cons, ha, ite_true]
        rw [ih hl]
      · simp [List.takeWhile_cons, ha]

lemma foldl_settle_eq (f : ℚ → Bool) :
    ∀ (cs : List ℚ) (n : ℕ),
      cs.foldl (fun k c => if f c then k + 1 else 0) n =
        if ∀ c ∈ cs, f c then n + cs.length else (cs.reverse.takeWhile f).length := by
  intro cs
  induction cs with
  | nil => intro n; simp
  | cons c cs ih =>
      intro n
      rw [List.foldl_cons, ih]
      by_cases hc : f c = true <;> by_cases hcs : ∀ a ∈ cs, f a = true
      · have hall : ∀ a ∈ (c :: cs), f a = true := by
          intro a ha
          rcases List.mem_cons.mp ha with rfl | ha
          · exact hc
          · exact hcs a ha
        rw [if_pos hcs, if_pos hall, if_pos hc]
        simp only [List.length_cons]
        omega
      · have hx : ¬ ∀ a ∈ (c :: cs), f a = true :=
          fun hx => hcs fun a ha => hx a (List.mem_cons_of_mem _ ha)
        rw [if_neg hcs, if_neg hx, List.reverse_cons,
            takeWhile_append_fail f _ _
              (fun hall => hcs fun a ha => hall a (List.mem_reverse.mpr ha))]
      · have hx : ¬ ∀ a ∈ (c :: cs), f a = true :=
          fun hx => hc (hx c (List.mem_cons_self c cs))
        rw [if_pos hcs, if_neg hx, if_neg hc, List.reverse_cons,
            takeWhile_append_all f _ _ (fun a ha => hcs a (List.mem_reverse.mp ha))]
        simp [List.takeWhile_cons, hc]
      · have hx : ¬ ∀ a ∈ (c :: cs), f a = true :=
          fun hx => hc (hx c (List.mem_cons_self c cs))
        rw [if_neg hcs, if_neg hx, List.reverse_cons,
            takeWhile_append_fail f _ _
              (fun hall => hcs fun a ha => hall a (List.mem_reverse.mpr ha))]

lemma PID.runComputes_settle (p : PID) (cs : List ℚ) :
    (p.runComputes cs).settle_count =
      cs.foldl (fun k c => if p.inTol c then k + 1 else 0) p.settle_count := by
  induction cs generalizing p with
  | nil => rfl
  | cons c cs ih =>
      rw [show p.runComputes (c :: cs) = ((p.compute c).2).runComputes cs from rfl,
          ih, List.foldl_cons]
      have h1 : ((p.compute c).2).inTol = p.inTol := rfl
      have h2 : ((p.compute c).2).settle_count =
          if p.inTol c then p.settle_count + 1 else 0 := by
        simp [PID.compute, PID.inTol]
      rw [h1, h2]

lemma PID.runComputes_target (p : PID) (cs : List ℚ) :
    (p.runComputes cs).target = p.target := by
  induction cs generalizing p with
  | nil => rfl
  | cons c cs ih =>
      rw [show p.runComputes (c :: cs) = ((p.compute c).2).runComputes cs from rfl]
      exact ih ((p.compute c).2)

lemma PID.runComputes_error_range (p : PID) (cs : List ℚ) :
    (p.runComputes cs).error_range = p.error_range := by
  induction cs generalizing p with
  | nil => rfl
  | cons c cs ih =>
      rw [show p.runComputes (c :: cs) = ((p.compute c).2).runComputes cs from rfl]
      exact ih ((p.compute c).2)

lemma PID.runComputes_settle_streak (p : PID) (t : ℚ) (cs : List ℚ) :
    ((p.reset t).runComputes cs).settle_count = (p.reset t).trailStreak cs := by
  rw [PID.runComputes_settle, foldl_settle_eq]
  by_cases h : ∀ c ∈ cs, (p.reset t).inTol c
  · rw [if_pos h, PID.trailStreak,
        List.takeWhile_eq_self_iff.mpr (by simpa using fun a ha => h a (List.mem_reverse.mp ha))]
    simp [PID.reset]
  · rw [if_neg h, PID.trailStreak]

/-- Claim C3: after a reset, `isSettled()` returns true exactly when the error has
been within errorRange for at least the fixed minimum number of trailing
consecutive samples; a single sample inside errorRange never makes `isSettled()`
true, and any sample outside errorRange resets the consecutive-sample count to
zero. -/
theorem PID.isSettled_debounce (p : PID) (t : ℚ) (cs : List ℚ) :
    (((p.reset t).runComputes cs).isSettled = true ↔
        settleThreshold ≤ (p.reset t).trailStreak cs)
    ∧ (∀ c, ((p.reset t).compute c).2.isSettled = false)
    ∧ (∀ c, (p.reset t).inTol c = false →
        ((((p.reset t).runComputes cs).compute c).2.settle_count = 0)) := by
  refine ⟨?_, ?_, ?_⟩
  · rw [PID.isSettled, PID.runComputes_settle_streak]
    simp
  · intro c
    rw [PID.isSettled]
    have : ((p.reset t).compute c).2.settle_count =
        if (p.reset t).inTol c then 1 else 0 := by
      simp [PID.compute, PID.inTol, PID.reset]
    rw [this]
    by_cases hc : (p.reset t).inTol c <;> simp [hc, settleThreshold]
  · intro c hc
    simp only [PID.inTol, decide_eq_false_iff_not] at hc
    simp only [PID.compute]
    rw [PID.runComputes_target, PID.runComputes_error_range]
    exact if_neg hc

/-- Witness for C3: the straight PID of src/src/init.cpp, reset to target 0; the
sample 5 lies outside the tolerance band (errorRange 1), so after three perfect
samples one out-of-range sample resets the consecutive count to zero. -/
theorem PID.isSettled_debounce_witness :
    (straightPID.reset 0).inTol 5 = false ∧
    ((((straightPID.reset 0).runComputes [0, 0, 0]).compute 5).2.settle_count = 0) := by
  have hc : (straightPID.reset 0).inTol 5 = false := by
    simp only [PID.inTol, PID.reset, decide_eq_false_iff_not, not_le]
    rw [show straightPID.error_range = 1 from rfl]
    norm_num
  exact ⟨hc, (PID.isSettled_debounce straightPID 0 [0, 0, 0]).2.2 5 hc⟩

lemma PID.reset_reset (p : PID) (t : ℚ) : (p.reset t).reset t = p.reset t := rfl

/-- Claim C6: two resets in a row are the same as one, and more generally the
compute-output sequence after `reset(target)` depends only on the configuration
fields, never on the internal state from before the reset. -/
theorem PID.reset_idempotent (p q : PID) (t : ℚ) (cs : List ℚ)
    (hkP : p.kP = q.kP) (hkI : p.kI = q.kI) (hkD : p.kD = q.kD)
    (hb : p.bias = q.bias) (hM : p.max_integral = q.max_integral)
    (hr : p.error_range = q.error_range) (hd : p.delay_time = q.delay_time) :
    ((p.reset t).reset t).outputs cs = (p.reset t).outputs cs
    ∧ (p.reset t).outputs cs = (q.reset t).outputs cs := by
  have hpq : p.reset t = q.reset t := by
    cases p; cases q
    simp_all [PID.reset]
  exact ⟨by rw [PID.reset_reset], by rw [hpq]⟩

/-- Witness for C6: a straight PID carrying stale internal state (integral 99,
previous error −7, settle count 5) produces, after `reset(100)`, the same output
sequence on inputs [1, 2] as the freshly configured straight PID. -/
theorem PID.reset_idempotent_witness :
    ({ straightPID with integral := 99, prev_error := -7, settle_count := 5 } : PID).kP
        = straightPID.kP ∧
    (({ straightPID with integral := 99, prev_error := -7, settle_count := 5 } : PID).reset
        100).outputs [1, 2] = (straightPID.reset 100).outputs [1, 2] :=
  ⟨rfl, (PID.reset_idempotent _ straightPID 100 [1, 2] rfl rfl rfl rfl rfl rfl rfl).2⟩

/-- Negating the input of a clamp into a symmetric interval negates the output. -/
lemma clamp_neg (x M : ℚ) (hM : 0 ≤ M) : clamp (-x) (-M) M = -(clamp x (-M) M) := by
  unfold clamp
  rcases le_total x (-M) with h1 | h1
  · rw [max_eq_left h1, min_eq_right (by linarith : -M ≤ M),
        max_eq_right (by linarith : -M ≤ -x), min_eq_left (by linarith : M ≤ -x)]
    exact (neg_neg M).symm
  · rcases le_total M x with h2 | h2
    · rw [max_eq_right (by linarith : -M ≤ x), min_eq_left h2,
          max_eq_left (by linarith : -x ≤ -M), min_eq_right (by linarith : -M ≤ M)]
    · rw [max_eq_right h1, min_eq_right h2,
          max_eq_right (by linarith : -M ≤ -x), min_eq_right (by linarith : -x ≤ M)]

lemma PID.compute_bias (p : PID) (c : ℚ) : ((p.compute c).2).bias = p.bias := rfl

lemma PID.compute_max_integral (p : PID) (c : ℚ) :
    ((p.compute c).2).max_integral = p.max_integral := rfl

lemma PID.reset_bias (p : PID) (t : ℚ) : (p.reset t).bias = p.bias := rfl

lemma PID.reset_max_integral (p : PID) (t : ℚ) :
    (p.reset t).max_integral = p.max_integral := rfl

/-- Mirroring a freshly reset controller is the same as resetting it to the
opposite target. -/
lemma PID.mirror_reset (p : PID) (t : ℚ) : (p.reset t).mirror = p.reset (-t) := by
  simp [PID.reset, PID.mirror]

/-- The controller is odd in its target and sample when the bias is zero: on the
mirrored state and the negated sample it produces the negated correction and the
mirrored next state. -/
lemma PID.mirror_compute (p : PID) (c : ℚ) (hb : p.bias = 0)
    (hM : 0 ≤ p.max_integral) :
    (p.mirror.compute (-c)).1 = -((p.compute c).1)
    ∧ (p.mirror.compute (-c)).2 = ((p.compute c).2).mirror := by
  obtain ⟨kp, ki, kd, b, M, er, dt, t, i, pe, sc⟩ := p
  simp only [PID.bias] at hb
  subst hb
  simp only [PID.max_integral] at hM
  have h1 : -t - -c = -(t - c) := by ring
  have h2 : -i + -(t - c) * dt = -(i + (t - c) * dt) := by ring
  constructor
  · simp only [PID.compute, PID.mirror, h1, h2, clamp_neg _ _ hM]
    ring
  · simp only [PID.compute, PID.mirror, h1, h2, clamp_neg _ _ hM, PID.mk.injEq,
      abs_neg]

/-- One control-loop tick is odd: the mirrored loop state on the negated reading
commands the negated velocity and steps to the mirrored loop state. -/
lemma sideTick_mirror (maxSpd maxA : ℚ) (hS : 0 ≤ maxSpd) (hA : 0 ≤ maxA)
    (s : SideLoop) (r : ℚ) (hb : s.pid.bias = 0) (hM : 0 ≤ s.pid.max_integral) :
    (sideTick maxSpd maxA ⟨s.pid.mirror, -s.last_cmd⟩ (-r)).2
        = -((sideTick maxSpd maxA s r).2)
    ∧ (sideTick maxSpd maxA ⟨s.pid.mirror, -s.last_cmd⟩ (-r)).1
        = ⟨(sideTick maxSpd maxA s r).1.pid.mirror,
           -((sideTick maxSpd maxA s r).1.last_cmd)⟩ := by
  have hcomp := PID.mirror_compute s.pid r hb hM
  have hv : clamp (rampStep maxA (-s.last_cmd) ((s.pid.mirror.compute (-r)).1))
      (-maxSpd) maxSpd = -(clamp (rampStep maxA s.last_cmd ((s.pid.compute r).1))
      (-maxSpd) maxSpd) := by
    rw [hcomp.1, rampStep, rampStep,
        show -((s.pid.compute r).1) - -s.last_cmd
          = -(((s.pid.compute r).1) - s.last_cmd) from by ring,
        clamp_neg _ _ hA,
        show -s.last_cmd + -(clamp ((s.pid.compute r).1 - s.last_cmd) (-maxA) maxA)
          = -(s.last_cmd + clamp ((s.pid.compute r).1 - s.last_cmd) (-maxA) maxA)
          from by ring,
        clamp_neg _ _ hS]
  exact ⟨hv, by simp only [sideTick, hcomp.2, hv]⟩

/-- The whole command stream is odd: the mirrored loop on the negated reading
trace commands the negated velocities. -/
lemma sideCmds_mirror (maxSpd maxA : ℚ) (hS : 0 ≤ maxSpd) (hA : 0 ≤ maxA) :
    ∀ (rs : List ℚ) (s : SideLoop), s.pid.bias = 0 → 0 ≤ s.pid.max_integral →
      sideCmds maxSpd maxA ⟨s.pid.mirror, -s.last_cmd⟩ (rs.map (fun x => -x))
        = (sideCmds maxSpd maxA s rs).map (fun x => -x) := by
  intro rs
  induction rs with
  | nil => intro s _ _; rfl
  | cons r rs ih =>
      intro s hb hM
      have ht := sideTick_mirror maxSpd maxA hS hA s r hb hM
      rw [show (r :: rs).map (fun x => -x) = -r :: rs.map (fun x => -x) from rfl,
          sideCmds, ht.1, ht.2,
          ih (sideTick maxSpd maxA s r).1 (by rw [show (sideTick maxSpd maxA s r).1.pid
              = ((s.pid.compute r)).2 from rfl, PID.compute_bias]; exact hb)
            (by rw [show (sideTick maxSpd maxA s r).1.pid
              = ((s.pid.compute r)).2 from rfl, PID.compute_max_integral]; exact hM)]
      rfl

/-- Claim C4: for every angle θ, the turn targets are of equal magnitude and
opposite sign, each equal to θ·track_width/2 converted to encoder units
(θ·track_width·gear_ratio/(2·wheel_radius), the conversion being exact over ℚ);
and with the turn controller's bias zero, a nonnegative integral clamp, and the
two sides reading mirrored encoder values, the two side Mechanisms receive
opposite-signed velocity commands of matching magnitude at every tick. -/
theorem HDrive.turn_symmetric (ch : HDrive) (θ : ℚ) (maxSpd maxA : ℚ)
    (readings : List ℚ)
    (hb : ch.pidTurn.bias = 0) (hM : 0 ≤ ch.pidTurn.max_integral)
    (hS : 0 ≤ maxSpd) (hA : 0 ≤ maxA) :
    (ch.turnTargets θ).1 = θ * ch.track_width * ch.gear_ratio / (2 * ch.wheel_radius)
    ∧ (ch.turnTargets θ).2 = -((ch.turnTargets θ).1)
    ∧ |(ch.turnTargets θ).2| = |(ch.turnTargets θ).1|
    ∧ sideCmds maxSpd maxA ⟨ch.pidTurn.reset ((ch.turnTargets θ).2), 0⟩
        (readings.map (fun x => -x))
      = (sideCmds maxSpd maxA ⟨ch.pidTurn.reset ((ch.turnTargets θ).1), 0⟩
          readings).map (fun x => -x) := by
  refine ⟨rfl, rfl, abs_neg _, ?_⟩
  have h0 : (ch.turnTargets θ).2 = -((ch.turnTargets θ).1) := rfl
  rw [h0, ← PID.mirror_reset,
      show (0 : ℚ) = -(0 : ℚ) from (neg_zero).symm]
  exact sideCmds_mirror maxSpd maxA hS hA readings
    ⟨ch.pidTurn.reset ((ch.turnTargets θ).1), 0⟩
    (by rw [SideLoop.pid, PID.reset_bias]; exact hb)
    (by rw [SideLoop.pid, PID.reset_max_integral]; exact hM)

/-- Witness for C4: the chassis and turn PID of src/src/init.cpp, a 90-degree
turn with speed cap 50 and acceleration step 5, over the mirrored reading traces
[0, 10] and [0, −10]. -/
theorem HDrive.turn_symmetric_witness :
    chassis.pidTurn.bias = 0 ∧ (0 : ℚ) ≤ chassis.pidTurn.max_integral
    ∧ (0 : ℚ) ≤ 50 ∧ (0 : ℚ) ≤ 5
    ∧ (chassis.turnTargets 90).2 = -((chassis.turnTargets 90).1)
    ∧ sideCmds 50 5 ⟨chassis.pidTurn.reset ((chassis.turnTargets 90).2), 0⟩
        ([0, 10].map (fun x => -x))
      = (sideCmds 50 5 ⟨chassis.pidTurn.reset ((chassis.turnTargets 90).1), 0⟩
          [0, 10]).map (fun x => -x) := by
  have hb : chassis.pidTurn.bias = 0 := rfl
  have hM : (0 : ℚ) ≤ chassis.pidTurn.max_integral := by
    rw [show chassis.pidTurn.max_integral = 0 from rfl]
  have h := HDrive.turn_symmetric chassis 90 50 5 [0, 10] hb hM
    (by norm_num) (by norm_num)
  exact ⟨hb, hM, by norm_num, by norm_num, h.2.1, h.2.2.2⟩

/-- Claim C7: `stop()` commands every Mechanism of the chassis to zero velocity
and cancels any in-flight asynchronous handle, while the brake mode is not
applied to any Mechanism and the brake-type setting itself is unchanged. -/
theorem HDrive.stop_spec (ch : HDrive) :
    (ch.stop).left.velocity_cmd = 0
    ∧ (ch.stop).right.velocity_cmd = 0
    ∧ (ch.stop).center.velocity_cmd = 0
    ∧ (ch.stop).async_active = false
    ∧ (ch.stop).brake_type = ch.brake_type
    ∧ (ch.stop).left.brake_mode = ch.left.brake_mode
    ∧ (ch.stop).right.brake_mode = ch.right.brake_mode
    ∧ (ch.stop).center.brake_mode = ch.center.brake_mode :=
  ⟨rfl, rfl, rfl, rfl, rfl, rfl, rfl, rfl⟩

/-- Counterexample to C8: setting a non-positive tick interval is not detected or
rejected at the configuration call.  In src/src/init.cpp line 25 the tick
interval is configured by direct assignment to the public field `delay_time`, so
the assignment always succeeds: the straight PID accepts delay_time 0 and −5
without any error being reported. -/
theorem PID.setDelayTime_accepts_nonpositive :
    (straightPID.setDelayTime 0).delay_time = 0
    ∧ (straightPID.setDelayTime (-5)).delay_time = -5 :=
  ⟨rfl, rfl⟩

/-- Claim C8 (amended): tick-interval configuration is a plain public-field
assignment that always succeeds and stores the given value, even a non-positive
one; no configuration-time detection or rejection occurs, so a bad tick interval
first surfaces, if at all, during a motion's control loop. -/
theorem PID.setDelayTime_unchecked (p : PID) (t : ℚ) :
    (p.setDelayTime t).delay_time = t := rfl

/-- Claim C9: `turn` (taking its angle as a C++ int, HDrive.h line 117) operates
on the integer truncation of the requested angle, while `turnAsync` (taking a
float, line 125) uses it unchanged; hence on any non-integer angle, with a
nondegenerate chassis, the two drive different targets. -/
theorem HDrive.turn_truncates (ch : HDrive) (a : ℚ)
    (ha : ∀ n : ℤ, a ≠ (n : ℚ)) (hW : 0 < ch.track_width)
    (hg : 0 < ch.gear_ratio) (hr : 0 < ch.wheel_radius) :
    ch.turn a = ch.turnAsync ((cppTrunc a : ℤ) : ℚ)
    ∧ ch.turn a ≠ ch.turnAsync a := by
  refine ⟨rfl, ?_⟩
  intro h
  have h1 : (ch.turn a).1 = (ch.turnAsync a).1 := by rw [h]
  simp only [HDrive.turn, HDrive.turnAsync, HDrive.turnTargets,
    HDrive.turnTargetMag] at h1
  have h2r : (0 : ℚ) < 2 * ch.wheel_radius := by linarith
  rw [div_eq_div_iff (ne_of_gt h2r) (ne_of_gt h2r), mul_assoc, mul_assoc,
      mul_assoc, mul_assoc] at h1
  have hK : ch.track_width * (ch.gear_ratio * (2 * ch.wheel_radius)) ≠ 0 :=
    ne_of_gt (mul_pos hW (mul_pos hg h2r))
  exact ha (cppTrunc a) (mul_right_cancel₀ hK h1).symm

/-- Witness for C9: the chassis of src/src/init.cpp and the fractional angle 1/2:
`turn` drives the targets of angle 0 while `turnAsync` drives those of 1/2. -/
theorem HDrive.turn_truncates_witness :
    (∀ n : ℤ, (1/2 : ℚ) ≠ (n : ℚ)) ∧ 0 < chassis.track_width
    ∧ 0 < chassis.gear_ratio ∧ 0 < chassis.wheel_radius
    ∧ chassis.turn (1/2) ≠ chassis.turnAsync (1/2) := by
  have ha : ∀ n : ℤ, (1/2 : ℚ) ≠ (n : ℚ) := by
    intro n hn
    have h2 : (1 : ℚ) = 2 * (n : ℚ) := by linarith
    have h3 : (1 : ℤ) = 2 * n := by exact_mod_cast h2
    omega
  have hW : (0 : ℚ) < chassis.track_width := by
    rw [show chassis.track_width = 101/8 from rfl]; norm_num
  have hg : (0 : ℚ) < chassis.gear_ratio := by
    rw [show chassis.gear_ratio = 1 from rfl]; norm_num
  have hr : (0 : ℚ) < chassis.wheel_radius := by
    rw [show chassis.wheel_radius = 13/8 from rfl]; norm_num
  exact ⟨ha, hW, hg, hr, (HDrive.turn_truncates chassis (1/2) ha hW hg hr).2⟩

lemma runLoop_cfg (maxA : ℚ) :
    ∀ (tr : List (ℚ × ℚ × ℚ)) (s : LoopState), (runLoop maxA s tr).cfg = s.cfg := by
  intro tr
  induction tr with
  | nil => intro s; rfl
  | cons e tr ih => intro s; exact ih (loopTick maxA s e).1

lemma leftCmds_eq_sideCmds (maxA : ℚ) :
    ∀ (tr : List (ℚ × ℚ × ℚ)) (s : LoopState),
      leftCmds maxA s tr = sideCmds s.cfg.l_max_spd maxA s.leftLoop (tr.map Prod.fst) := by
  intro tr
  induction tr with
  | nil => intro s; rfl
  | cons e tr ih =>
      intro s
      rw [show leftCmds maxA s (e :: tr)
            = (loopTick maxA s e).2.1 :: leftCmds maxA (loopTick maxA s e).1 tr from rfl,
          ih (loopTick maxA s e).1]
      rfl

/-- Claim C10: per-axis targets are fixed once by `setTarget` and remain
constant through the whole control loop; and the left commands are exactly the
single-axis loop over the left encoder readings alone, so the loop closes only
on each wheel group's own encoder error — two traces agreeing on the left
readings produce identical left command streams regardless of the other axes
(no pose feedback, no sideways-drift correction). -/
theorem HDrive.setTarget_open_loop (ch : HDrive)
    (lt rt ct ls rs cs maxA : ℚ) (tr tr1 tr2 : List (ℚ × ℚ × ℚ))
    (h12 : tr1.map Prod.fst = tr2.map Prod.fst) :
    (runLoop maxA (ch.setTarget lt rt ct ls rs cs) tr).cfg
      = (ch.setTarget lt rt ct ls rs cs).cfg
    ∧ (ch.setTarget lt rt ct ls rs cs).cfg.left_target = lt
    ∧ leftCmds maxA (ch.setTarget lt rt ct ls rs cs) tr
        = sideCmds ls maxA ⟨ch.pidStraight.reset lt, 0⟩ (tr.map Prod.fst)
    ∧ leftCmds maxA (ch.setTarget lt rt ct ls rs cs) tr1
        = leftCmds maxA (ch.setTarget lt rt ct ls rs cs) tr2 := by
  refine ⟨runLoop_cfg maxA tr _, rfl, leftCmds_eq_sideCmds maxA tr _, ?_⟩
  rw [leftCmds_eq_sideCmds maxA tr1, leftCmds_eq_sideCmds maxA tr2, h12]

/-- Witness for C10: the chassis of src/src/init.cpp driven toward targets
(360, 360, 0); the traces [(1, 2, 3)] and [(1, 9, 9)] agree on the left encoder
reading only, yet yield identical left command streams. -/
theorem HDrive.setTarget_open_loop_witness :
    ([((1 : ℚ), (2 : ℚ), (3 : ℚ))].map Prod.fst
        = [((1 : ℚ), (9 : ℚ), (9 : ℚ))].map Prod.fst)
    ∧ leftCmds 5 (chassis.setTarget 360 360 0 50 50 0) [(1, 2, 3)]
        = leftCmds 5 (chassis.setTarget 360 360 0 50 50 0) [(1, 9, 9)] :=
  ⟨rfl, (HDrive.setTarget_open_loop chassis 360 360 0 50 50 0 5 []
      [(1, 2, 3)] [(1, 9, 9)] rfl).2.2.2⟩

end WPID
